import Mathlib

/-!
Verification of the speech-transcript analysis framework
(`funion_class.py`, `funion_parsers.py`, `NLP_scrape.py`, `framework_app.py`).

Shallow embedding conventions:
* A Python `str` is modelled as a `List Nat` of Unicode code points
  (`str` below converts a Lean string literal for concrete test inputs).
* `string.punctuation` is the 32 ASCII punctuation code points
  (33–47, 58–64, 91–96, 123–126).
* Python `str.split()` splits on runs of whitespace and drops empty
  pieces; the embedding covers the ASCII whitespace characters
  (space, tab, LF, VT, FF, CR).
* Python `str.lower()` is modelled on the ASCII range (A–Z ↦ a–z); the
  claims under study only concern ASCII case and ASCII punctuation.
* External collaborators (the HTTP fetch, the file write, the
  BeautifulSoup parse of raw bytes, the TextBlob sentiment model) are
  parameters of the orchestration functions, exactly at the interface
  the code uses them.
-/

namespace Funion

/-- Code point of a Lean string, for concrete inputs. -/
def str (s : String) : List Nat := s.data.map Char.toNat

/-- ASCII whitespace recognised by Python `str.split()`. -/
def isSpace (c : Nat) : Bool :=
  decide (c = 32 ∨ c = 9 ∨ c = 10 ∨ c = 11 ∨ c = 12 ∨ c = 13)

/-- Membership in Python `string.punctuation` (the 32 ASCII punctuation
characters). -/
def isPunct (c : Nat) : Bool :=
  decide ((33 ≤ c ∧ c ≤ 47) ∨ (58 ≤ c ∧ c ≤ 64) ∨
          (91 ≤ c ∧ c ≤ 96) ∨ (123 ≤ c ∧ c ≤ 126))

/-- Python `str.lower()` on one code point (ASCII range). -/
def lowerChar (c : Nat) : Nat :=
  if 65 ≤ c ∧ c ≤ 90 then c + 32 else c

/-- `Funion.to_lowercase`: `text.lower()`. -/
def to_lowercase (t : List Nat) : List Nat := t.map lowerChar

/-- `Funion.remove_punctuation`:
`text.translate(str.maketrans('', '', string.punctuation))`, which deletes
every character of `string.punctuation` and keeps the rest in order. -/
def remove_punctuation (t : List Nat) : List Nat :=
  t.filter (fun c => !(isPunct c))

/-- Helper for Python `str.split()`: `acc` holds the (reversed) current
in-progress word. -/
def splitWsAux : List Nat → List Nat → List (List Nat)
  | [], acc => if acc = [] then [] else [acc.reverse]
  | c :: cs, acc =>
    if isSpace c then
      (if acc = [] then [] else [acc.reverse]) ++ splitWsAux cs []
    else
      splitWsAux cs (c :: acc)

/-- Python `text.split()`: split on whitespace runs, no empty tokens. -/
def splitWs (t : List Nat) : List (List Nat) := splitWsAux t []

/-- Python `' '.join(words)`. -/
def joinSpace : List (List Nat) → List Nat
  | [] => []
  | [w] => w
  | w :: ws => w ++ 32 :: joinSpace ws

/-- The literal word `'applause'`. -/
def applause : List Nat := str "applause"

/-- The en dash `'–'` (U+2013) as a one-character string. -/
def enDash : List Nat := [8211]

/-- The em dash `'—'` (U+2014) as a one-character string. -/
def emDash : List Nat := [8212]

/-- The per-word test of `Funion.remove_stop_words`:
`word.lower() not in self.stop_words and word.lower() != 'applause'
and word.lower() != '–' and word.lower() != '—'`.  The stop-word set is
the parameter `S` (a decidable set of strings). -/
def keepWord (S : List Nat → Bool) (w : List Nat) : Bool :=
  !(S (w.map lowerChar)) && !(w.map lowerChar == applause) &&
    !(w.map lowerChar == enDash) && !(w.map lowerChar == emDash)

/-- `Funion.remove_stop_words`: split on whitespace, keep the words that
pass `keepWord`, rejoin with single spaces. -/
def remove_stop_words (S : List Nat → Bool) (t : List Nat) : List Nat :=
  joinSpace ((splitWs t).filter (keepWord S))

/-- `Funion.count_words`: `words = text.split()`, the Counter (here: the
distinct tokens paired with their occurrence counts) and `len(words)`. -/
def count_words (t : List Nat) : List (List Nat × Nat) × Nat :=
  let words := splitWs t
  (words.dedup.map (fun w => (w, words.count w)), words.length)

/-- `Funion.calculate_word_length`: `total_chars / len(words) if words
else 0`, as an exact rational. -/
def calculate_word_length (t : List Nat) : ℚ :=
  let words := splitWs t
  if words = [] then 0
  else (((words.map List.length).sum : Nat) : ℚ) / ((words.length : Nat) : ℚ)

/-- The normalization pipeline of `Funion.load_text` (lines 95–97):
lowercase, then punctuation strip, then stop-word/noise removal. -/
def pipelineNorm (S : List Nat → Bool) (t : List Nat) : List Nat :=
  remove_stop_words S (remove_punctuation (to_lowercase t))

/-- The statistics bundle stored under `self.data[label or filename]`:
`word_count`, `num_words`, `word_length`, `sentiment`. -/
structure Bundle where
  word_count : List (List Nat × Nat)
  num_words : Nat
  word_length : ℚ
  sentiment : ℚ

/-- The value inserted into the registry by `Funion.load_text`
(lines 99–111): statistics of the normalized transcript.  The TextBlob
sentiment model is an external collaborator, passed as `sentimentFn`. -/
def mkBundle (sentimentFn : List Nat → ℚ) (transcript : List Nat) : Bundle :=
  { word_count := (count_words transcript).1
    num_words := (count_words transcript).2
    word_length := calculate_word_length transcript
    sentiment := sentimentFn transcript }

/-- Python `label or filename` (line 106): `None` and the empty string
are falsy, so both fall back to `filename`. -/
def labelOrFilename (label : Option (List Nat)) (filename : List Nat) : List Nat :=
  match label with
  | some l => if l = [] then filename else l
  | none => filename

/-- Error raised out of `Funion.load_text`: `raise_for_status` on a
failed fetch, or the file write in `save_transcript` failing. -/
inductive LoadErr where
  | fetchError
  | storageError
deriving DecidableEq

/-- The mutable state of a `Funion` instance plus the output folder:
`self.data` (the Document Registry, newest entry first so that lookup
sees the latest insertion, matching dict overwrite semantics) and the
saved transcript files. -/
structure FState where
  registry : List (List Nat × Bundle)
  storage : List (List Nat × List Nat)

/-- `Funion.load_text` (lines 85–113).  External collaborators are
parameters: `sp` is `self.simple_text_parser` applied to the raw
content (the BeautifulSoup parse is outside the embedding),
`sf` the sentiment model, `S` the stop-word set.  `fetchResult = none`
models a transport error or a non-success status (`requests.get` /
`raise_for_status` raising); `storeOk = false` models the
`save_transcript` write raising.  The result pairs the exception that
propagates out (if any) with the state as left behind: mutations made
before a raise persist, exactly as in Python. -/
def load_text (sp : List Nat → List Nat) (sf : List Nat → ℚ)
    (S : List Nat → Bool) (fetchResult : Option (List Nat)) (storeOk : Bool)
    (filename : List Nat) (label : Option (List Nat))
    (parser : Option (List Nat → List Nat)) (st : FState) :
    Option LoadErr × FState :=
  match fetchResult with
  | none => (some .fetchError, st)
  | some content =>
    let transcript :=
      pipelineNorm S (match parser with
        | some p => p content
        | none => sp content)
    let bundle := mkBundle sf transcript
    let st1 : FState :=
      { st with registry := (labelOrFilename label filename, bundle) :: st.registry }
    if storeOk then (none, { st1 with storage := (filename, transcript) :: st1.storage })
    else (some .storageError, st1)

/-- One configured document of a `Funion` run (a `load_text` call of
`framework_app.main`), together with the behavior of its external
collaborators on this run. -/
structure Doc where
  fetchResult : Option (List Nat)
  filename : List Nat
  label : Option (List Nat)
  parser : Option (List Nat → List Nat)
  storeOk : Bool

/-- The `framework_app.main` driver: successive `load_text` calls with
no try/except, so the first exception propagates and the remaining
documents are never attempted. -/
def funionRun (sp : List Nat → List Nat) (sf : List Nat → ℚ) (S : List Nat → Bool) :
    List Doc → FState → Option LoadErr × FState
  | [], st => (none, st)
  | d :: ds, st =>
    match load_text sp sf S d.fetchResult d.storeOk d.filename d.label d.parser st with
    | (none, st2) => funionRun sp sf S ds st2
    | (some e, st2) => (some e, st2)

/-- One document of the standalone `NLP_scrape.py` script: fetch
outcome, destination filename, the selected extractor (PDF / special /
generic, all external to the claim under study), and the write outcome. -/
structure SDoc where
  fetchResult : Option (List Nat)
  filename : List Nat
  extract : List Nat → List Nat
  saveOk : Bool

/-- `NLP_scrape.fetch_and_save` (lines 38–55): the whole body is inside
`try/except`, so any failure is reported (`False`) and swallowed;
success saves the transcript and reports `True`. -/
def fetch_and_save (d : SDoc) (storage : List (List Nat × List Nat)) :
    Bool × List (List Nat × List Nat) :=
  match d.fetchResult with
  | none => (false, storage)
  | some content =>
    if d.saveOk then (true, (d.filename, d.extract content) :: storage)
    else (false, storage)

/-- The driver loop at the bottom of `NLP_scrape.py`: every configured
document is passed to `fetch_and_save`; the per-document success flags
are collected in order. -/
def scrapeRun : List SDoc → List (List Nat × List Nat) →
    List Bool × List (List Nat × List Nat)
  | [], storage => ([], storage)
  | d :: ds, storage =>
    let r := fetch_and_save d storage
    let rest := scrapeRun ds r.2
    (r.1 :: rest.1, rest.2)

/-- A parsed HTML document node, the shape BeautifulSoup exposes to the
scrapers: element with tag, `class` attribute values and children, or a
text node. -/
inductive Html where
  | text (s : List Nat)
  | elem (tag : List Nat) (classes : List (List Nat)) (children : List Html)

/-- Python `str.strip()` (used by `get_text(strip=True)`). -/
def stripWs (s : List Nat) : List Nat :=
  ((s.dropWhile (fun c => isSpace c)).reverse.dropWhile (fun c => isSpace c)).reverse

mutual
/-- `node.get_text(strip=True)`: concatenation of the stripped text of
all descendant strings, in document order. -/
def getTextStrip : Html → List Nat
  | .text s => stripWs s
  | .elem _ _ cs => getTextStripList cs
def getTextStripList : List Html → List Nat
  | [] => []
  | h :: t => getTextStrip h ++ getTextStripList t
end

mutual
/-- `find_all('p')` over a forest: every descendant element with tag
`p`, in document (pre-order) order. -/
def findAllPList : List Html → List Html
  | [] => []
  | h :: t => findAllPTree h ++ findAllPList t
def findAllPTree : Html → List Html
  | .text _ => []
  | .elem tag classes cs =>
    (if tag == str "p" then [Html.elem tag classes cs] else []) ++ findAllPList cs
end

mutual
/-- `soup.find("div", class_=cls)`: the first (pre-order) descendant
`div` element carrying class `cls`, if any. -/
def findDivList (cls : List Nat) : List Html → Option Html
  | [] => none
  | h :: t =>
    match findDivTree cls h with
    | some r => some r
    | none => findDivList cls t
def findDivTree (cls : List Nat) : Html → Option Html
  | .text _ => none
  | .elem tag classes cs =>
    if tag == str "div" && classes.contains cls then some (Html.elem tag classes cs)
    else findDivList cls cs
end

/-- The children of a node (`find_all` on a found element searches its
descendants). -/
def childrenOf : Html → List Html
  | .text _ => []
  | .elem _ _ cs => cs

/-- `' '.join(p.get_text(strip=True) for p in ps)`. -/
def extractPs (ps : List Html) : List Nat := joinSpace (ps.map getTextStrip)

/-- `NLP_scrape.extract_text_from_html`, identical in body to the
generic extractor method of `Funion` (lines 33–36): all paragraphs of
the whole document. -/
def extract_text_from_html (doc : List Html) : List Nat :=
  extractPs (findAllPList doc)

/-- `funion_parsers.scrape_uk` / `NLP_scrape.scrape_uk`:
`content = soup.find("div", class_="govspeak") or soup`, then the
paragraphs of `content`. -/
def scrape_uk (doc : List Html) : List Nat :=
  match findDivList (str "govspeak") doc with
  | some content => extractPs (findAllPList (childrenOf content))
  | none => extractPs (findAllPList doc)

/-- `NLP_scrape.scrape_bc`:
`content = soup.find("div", class_="content-body") or soup`, then the
paragraphs of `content`. -/
def scrape_bc (doc : List Html) : List Nat :=
  match findDivList (str "content-body") doc with
  | some content => extractPs (findAllPList (childrenOf content))
  | none => extractPs (findAllPList doc)

/-- A concrete parsed document with no `govspeak` and no `content-body`
container. -/
def exHtml : List Html :=
  [Html.elem (str "div") [str "content"]
    [Html.elem (str "p") [] [Html.text (str " Hello World. ")],
     Html.elem (str "p") [] [Html.text (str "Bye!")],
     Html.text (str "stray")]]

/-- A configured document whose fetch fails (e.g. a 404). -/
def exDocFail : Doc :=
  { fetchResult := none, filename := str "doc1.txt",
    label := some (str "Doc One"), parser := none, storeOk := true }

/-- A configured document whose fetch succeeds. -/
def exDocOk : Doc :=
  { fetchResult := some (str "hello world"), filename := str "doc2.txt",
    label := some (str "Doc Two"), parser := none, storeOk := true }

/-- A scraper-script document whose fetch fails. -/
def exSDocFail : SDoc :=
  { fetchResult := none, filename := str "a.txt", extract := id, saveOk := true }

/-- A scraper-script document whose fetch succeeds. -/
def exSDocOk : SDoc :=
  { fetchResult := some (str "text"), filename := str "b.txt",
    extract := id, saveOk := true }

end Funion

namespace Funion

/-! ## Basic lemmas about the character classes and the tokenizer -/

lemma lowerChar_idem (c : Nat) : lowerChar (lowerChar c) = lowerChar c := by
  simp only [lowerChar]
  split_ifs <;> omega

lemma lowerChar_not_upper (c : Nat) : ¬(65 ≤ lowerChar c ∧ lowerChar c ≤ 90) := by
  simp only [lowerChar]
  split_ifs <;> omega

lemma map_eq_self_of_fix {f : Nat → Nat} :
    ∀ {l : List Nat}, (∀ c ∈ l, f c = c) → l.map f = l := by
  intro l
  induction l with
  | nil => intro _; rfl
  | cons a l ih =>
    intro h
    simp only [List.map_cons, h a (List.mem_cons_self a l),
      ih (fun c hc => h c (List.mem_cons_of_mem a hc))]

/-- Every token produced by `splitWsAux` is non-empty, drawn from the
accumulator or the remaining input, and free of whitespace. -/
lemma splitWsAux_sound (s : List Nat) : ∀ (acc : List Nat),
    (∀ c ∈ acc, isSpace c = false) →
    ∀ w ∈ splitWsAux s acc,
      w ≠ [] ∧ ∀ c ∈ w, (c ∈ acc ∨ c ∈ s) ∧ isSpace c = false := by
  induction s with
  | nil =>
    intro acc hacc w hw
    simp only [splitWsAux] at hw
    split at hw
    · simp at hw
    · next hne =>
      simp only [List.mem_singleton] at hw
      subst hw
      refine ⟨by simpa using hne, ?_⟩
      intro c hc
      rw [List.mem_reverse] at hc
      exact ⟨Or.inl hc, hacc c hc⟩
  | cons a cs ih =>
    intro acc hacc w hw
    simp only [splitWsAux] at hw
    split at hw
    · rw [List.mem_append] at hw
      rcases hw with hw | hw
      · split at hw
        · simp at hw
        · next hne =>
          simp only [List.mem_singleton] at hw
          subst hw
          refine ⟨by simpa using hne, ?_⟩
          intro c hc
          rw [List.mem_reverse] at hc
          exact ⟨Or.inl hc, hacc c hc⟩
      · obtain ⟨h1, h2⟩ := ih [] (by simp) w hw
        refine ⟨h1, fun c hc => ?_⟩
        obtain ⟨hmem, hsp⟩ := h2 c hc
        rcases hmem with h | h
        · simp at h
        · exact ⟨Or.inr (List.mem_cons_of_mem a h), hsp⟩
    · next hasp =>
      have hasp2 : isSpace a = false := by
        simpa using hasp
      obtain ⟨h1, h2⟩ := ih (a :: acc)
        (fun c hc => by
          rcases List.mem_cons.mp hc with rfl | hc
          · exact hasp2
          · exact hacc c hc) w hw
      refine ⟨h1, fun c hc => ?_⟩
      obtain ⟨hmem, hsp⟩ := h2 c hc
      refine ⟨?_, hsp⟩
      rcases hmem with h | h
      · rcases List.mem_cons.mp h with rfl | h
        · exact Or.inr (List.mem_cons_self c cs)
        · exact Or.inl h
      · exact Or.inr (List.mem_cons_of_mem a h)

lemma splitWs_token_ne_nil {t w : List Nat} (h : w ∈ splitWs t) : w ≠ [] :=
  (splitWsAux_sound t [] (by simp) w h).1

lemma splitWs_token_nonspace {t w : List Nat} (h : w ∈ splitWs t) :
    ∀ c ∈ w, isSpace c = false :=
  fun c hc => ((splitWsAux_sound t [] (by simp) w h).2 c hc).2

lemma splitWs_token_chars {t w : List Nat} (h : w ∈ splitWs t) :
    ∀ c ∈ w, c ∈ t := by
  intro c hc
  rcases ((splitWsAux_sound t [] (by simp) w h).2 c hc).1 with h0 | h0
  · simp at h0
  · exact h0

/-- Consuming a whitespace-free word pushes it onto the accumulator. -/
lemma splitWsAux_append (w : List Nat) : ∀ (acc s : List Nat),
    (∀ c ∈ w, isSpace c = false) →
    splitWsAux (w ++ s) acc = splitWsAux s (w.reverse ++ acc) := by
  induction w with
  | nil => intro acc s _; simp
  | cons c w ih =>
    intro acc s h
    have hc : isSpace c = false := h c (List.mem_cons_self c w)
    simp only [List.cons_append, splitWsAux, hc, Bool.false_eq_true, if_false,
      List.append_eq]
    rw [ih (c :: acc) s (fun d hd => h d (List.mem_cons_of_mem c hd))]
    simp

/-- Splitting undoes joining, for non-empty whitespace-free words. -/
lemma splitWs_joinSpace : ∀ (ws : List (List Nat)),
    (∀ w ∈ ws, w ≠ [] ∧ ∀ c ∈ w, isSpace c = false) →
    splitWs (joinSpace ws) = ws := by
  intro ws
  induction ws with
  | nil => intro _; rfl
  | cons w ws ih =>
    intro h
    obtain ⟨hne, hns⟩ := h w (List.mem_cons_self w ws)
    cases ws with
    | nil =>
      show splitWsAux (joinSpace [w]) [] = [w]
      have h1 : joinSpace [w] = w := rfl
      rw [h1, ← List.append_nil w, splitWsAux_append w [] [] hns]
      simp only [splitWsAux, List.append_nil]
      rw [if_neg (by simpa using hne)]
      simp
    | cons w2 ws2 =>
      have hrest := ih (fun x hx => h x (List.mem_cons_of_mem w hx))
      show splitWsAux (joinSpace (w :: w2 :: ws2)) [] = w :: w2 :: ws2
      have h1 : joinSpace (w :: w2 :: ws2) = w ++ 32 :: joinSpace (w2 :: ws2) := rfl
      rw [h1, splitWsAux_append w [] _ hns]
      simp only [splitWsAux, List.append_nil]
      rw [if_pos (by decide : isSpace 32 = true)]
      rw [if_neg (by simpa using hne)]
      simp only [List.reverse_reverse]
      rw [List.singleton_append]
      exact congrArg (w :: ·) hrest

/-- Characters of a joined word list: a separator space or a character
of one of the words. -/
lemma mem_joinSpace {c : Nat} : ∀ {ws : List (List Nat)}, c ∈ joinSpace ws →
    c = 32 ∨ ∃ w ∈ ws, c ∈ w := by
  intro ws
  induction ws with
  | nil => intro h; simp [joinSpace] at h
  | cons w ws ih =>
    cases ws with
    | nil =>
      intro h
      right
      exact ⟨w, List.mem_cons_self w [], by simpa [joinSpace] using h⟩
    | cons w2 ws2 =>
      intro h
      have h1 : joinSpace (w :: w2 :: ws2) = w ++ 32 :: joinSpace (w2 :: ws2) := rfl
      rw [h1, List.mem_append] at h
      rcases h with h | h
      · exact Or.inr ⟨w, List.mem_cons_self w _, h⟩
      · rcases List.mem_cons.mp h with rfl | h
        · exact Or.inl rfl
        · rcases ih h with h | ⟨x, hx, hcx⟩
          · exact Or.inl h
          · exact Or.inr ⟨x, List.mem_cons_of_mem w hx, hcx⟩

/-- The default `BEq (List Nat)` agrees with the one derived from
decidable equality, so counts coincide. -/
lemma count_bridge (w : List Nat) (l : List (List Nat)) :
    l.count w = @List.count (List ℕ) instBEqOfDecidableEq w l := by
  induction l with
  | nil => rfl
  | cons a l ih =>
    rw [List.count_cons, @List.count_cons (List ℕ) instBEqOfDecidableEq, ih]
    by_cases h : a = w <;> simp [h]

lemma count_filter_eq (p : Nat → Bool) (a : Nat) (l : List Nat) :
    (l.filter p).count a = if p a then l.count a else 0 := by
  by_cases hp : p a = true
  · rw [if_pos hp, List.count_filter hp]
  · have hp2 : p a = false := by simpa using hp
    rw [if_neg (by simp [hp2])]
    refine List.count_eq_zero.mpr ?_
    intro hmem
    have := List.of_mem_filter hmem
    rw [hp2] at this
    cases this

/-! ## Claim theorems -/

/-- C5: `remove_punctuation` removes exactly the characters of the fixed
ASCII punctuation set — hyphens included, even inside compound words —
and leaves every other character unchanged, in order (the result is a
sublist of the input and every character count is preserved outside the
punctuation set); it takes no configuration. -/
theorem remove_punctuation_exact :
    (∀ (s : List Nat) (c : Nat),
        (remove_punctuation s).count c = if isPunct c then 0 else s.count c) ∧
    (∀ s : List Nat, (remove_punctuation s).Sublist s) ∧
    (∀ s : List Nat, remove_punctuation s = s ↔ ∀ c ∈ s, isPunct c = false) ∧
    isPunct 45 = true ∧
    remove_punctuation (str "state-of-the-nation") = str "stateofthenation" := by
  refine ⟨?_, ?_, ?_, by decide, by decide⟩
  · intro s c
    cases h : isPunct c <;> simp [remove_punctuation, count_filter_eq, h]
  · intro s
    exact List.filter_sublist s
  · intro s
    simp [remove_punctuation, List.filter_eq_self]

/-- C6: `remove_stop_words` drops exactly the whitespace-delimited
tokens whose lowercase form is in the stop-word set or equals one of the
noise tokens ("applause", en dash, em dash), rejoins the survivors in
order with single spaces; concretely, the spec's scenario input with
stop words {"the", "over"} yields "quick brown fox jumps lazy dog". -/
theorem remove_stop_words_exact :
    (∀ (S : List Nat → Bool) (w : List Nat),
        keepWord S w = true ↔
          (S (w.map lowerChar) = false ∧ w.map lowerChar ≠ applause ∧
           w.map lowerChar ≠ enDash ∧ w.map lowerChar ≠ emDash)) ∧
    (∀ (S : List Nat → Bool) (t : List Nat),
        splitWs (remove_stop_words S t) = (splitWs t).filter (keepWord S)) ∧
    remove_stop_words (fun w => w == str "the" || w == str "over")
        (str "the quick brown fox jumps over the lazy dog applause") =
      str "quick brown fox jumps lazy dog" := by
  refine ⟨?_, ?_, by decide⟩
  · intro S w
    simp [keepWord, and_assoc]
  · intro S t
    refine splitWs_joinSpace _ ?_
    intro w hw
    have hw2 : w ∈ splitWs t := List.mem_of_mem_filter hw
    exact ⟨splitWs_token_ne_nil hw2, splitWs_token_nonspace hw2⟩

/-- C7: the mean token length equals the sum of the token lengths
divided by the token count, is exactly 0 when the token count is 0, and
is 0 iff the token count is 0. -/
theorem mean_token_length_spec (t : List Nat) :
    (calculate_word_length t =
      if (count_words t).2 = 0 then 0
      else (((splitWs t).map List.length).sum : ℚ) / ((count_words t).2 : ℚ)) ∧
    (calculate_word_length t = 0 ↔ (count_words t).2 = 0) := by
  have hnum : (count_words t).2 = (splitWs t).length := rfl
  have hcalc : calculate_word_length t =
      if splitWs t = [] then (0 : ℚ)
      else (((splitWs t).map List.length).sum : ℚ) / ((splitWs t).length : ℚ) := rfl
  constructor
  · rw [hcalc, hnum]
    by_cases h : splitWs t = []
    · rw [if_pos h, if_pos (by rw [h]; rfl)]
    · rw [if_neg h, if_neg (by simpa [List.length_eq_zero] using h)]
  · constructor
    · intro h0
      by_contra hne
      have hwords : splitWs t ≠ [] := by
        simpa [hnum, List.length_eq_zero] using hne
      rw [hcalc, if_neg hwords] at h0
      have hsum : 0 < ((splitWs t).map List.length).sum := by
        cases hsp : splitWs t with
        | nil => exact absurd hsp hwords
        | cons w ws =>
          have hw : w ∈ splitWs t := by
            rw [hsp]; exact List.mem_cons_self w ws
          have hlw : 0 < w.length :=
            List.length_pos.mpr (splitWs_token_ne_nil hw)
          simp only [List.map_cons, List.sum_cons]
          omega
      have hlen : 0 < (splitWs t).length := List.length_pos.mpr hwords
      exact div_ne_zero
        (by exact_mod_cast Nat.pos_iff_ne_zero.mp hsum)
        (by exact_mod_cast Nat.pos_iff_ne_zero.mp hlen) h0
    · intro h0
      have h1 : splitWs t = [] := List.length_eq_zero.mp (hnum ▸ h0)
      rw [hcalc, if_pos h1]

/-- C8: the occurrence counts of the frequency table of `count_words`
sum to its total token count. -/
theorem freq_table_sum (t : List Nat) :
    (((count_words t).1).map Prod.snd).sum = (count_words t).2 := by
  show ((((splitWs t).dedup.map
      (fun w => (w, (splitWs t).count w))).map Prod.snd).sum = (splitWs t).length)
  rw [List.map_map]
  have hcomp : (Prod.snd ∘ fun w => (w, (splitWs t).count w)) =
      fun w => (splitWs t).count w := rfl
  rw [hcomp]
  simp only [count_bridge]
  exact List.sum_map_count_dedup_eq_length (splitWs t)

/-- C3: the normalized text contains no ASCII punctuation character and
no ASCII uppercase character, and none of its whitespace-delimited
tokens has a lowercase form in the stop-word set or equal to a noise
token ("applause", en dash, em dash). -/
theorem pipeline_invariant (S : List Nat → Bool) (t : List Nat) :
    (∀ c ∈ pipelineNorm S t, isPunct c = false ∧ ¬(65 ≤ c ∧ c ≤ 90)) ∧
    (∀ w ∈ splitWs (pipelineNorm S t),
        S (w.map lowerChar) = false ∧ w.map lowerChar ≠ applause ∧
        w.map lowerChar ≠ enDash ∧ w.map lowerChar ≠ emDash) := by
  have husrc : ∀ c ∈ remove_punctuation (to_lowercase t),
      isPunct c = false ∧ ¬(65 ≤ c ∧ c ≤ 90) := by
    intro c hc
    have hc2 : c ∈ (to_lowercase t).filter (fun x => !(isPunct x)) := hc
    have h1 := List.of_mem_filter hc2
    simp only [Bool.not_eq_true'] at h1
    have h2 : c ∈ to_lowercase t := List.mem_of_mem_filter hc2
    obtain ⟨a, _, rfl⟩ := List.mem_map.mp h2
    exact ⟨h1, lowerChar_not_upper a⟩
  constructor
  · intro c hc
    have hc2 : c ∈ joinSpace ((splitWs (remove_punctuation (to_lowercase t))).filter
        (keepWord S)) := hc
    rcases mem_joinSpace hc2 with rfl | ⟨w, hw, hcw⟩
    · exact ⟨by decide, by omega⟩
    · exact husrc c (splitWs_token_chars (List.mem_of_mem_filter hw) c hcw)
  · intro w hw
    have hw2 : w ∈ splitWs (joinSpace ((splitWs (remove_punctuation (to_lowercase t))).filter
        (keepWord S))) := hw
    rw [splitWs_joinSpace _ (fun x hx =>
      ⟨splitWs_token_ne_nil (List.mem_of_mem_filter hx),
       splitWs_token_nonspace (List.mem_of_mem_filter hx)⟩)] at hw2
    have hk := List.of_mem_filter hw2
    simpa [keepWord, and_assoc] using hk

/-- C4: the normalization pipeline is idempotent — applying lowercase,
punctuation strip, stop-word/noise removal and single-space rejoin to
its own output returns that output unchanged. -/
theorem pipeline_idem (S : List Nat → Bool) (t : List Nat) :
    pipelineNorm S (pipelineNorm S t) = pipelineNorm S t := by
  have htok : ∀ w ∈ (splitWs (remove_punctuation (to_lowercase t))).filter (keepWord S),
      w ≠ [] ∧ ∀ c ∈ w, isSpace c = false := fun w hw =>
    ⟨splitWs_token_ne_nil (List.mem_of_mem_filter hw),
     splitWs_token_nonspace (List.mem_of_mem_filter hw)⟩
  have hchars : ∀ c ∈ joinSpace ((splitWs (remove_punctuation (to_lowercase t))).filter
      (keepWord S)), lowerChar c = c ∧ isPunct c = false := by
    intro c hc
    rcases mem_joinSpace hc with rfl | ⟨w, hw, hcw⟩
    · exact ⟨by decide, by decide⟩
    · have hcu : c ∈ (to_lowercase t).filter (fun x => !(isPunct x)) :=
        splitWs_token_chars (List.mem_of_mem_filter hw) c hcw
      have h1 := List.of_mem_filter hcu
      simp only [Bool.not_eq_true'] at h1
      have h2 : c ∈ to_lowercase t := List.mem_of_mem_filter hcu
      obtain ⟨a, _, rfl⟩ := List.mem_map.mp h2
      exact ⟨lowerChar_idem a, h1⟩
  have h1 : to_lowercase (joinSpace ((splitWs (remove_punctuation (to_lowercase t))).filter
      (keepWord S))) = joinSpace ((splitWs (remove_punctuation (to_lowercase t))).filter
      (keepWord S)) :=
    map_eq_self_of_fix (fun c hc => (hchars c hc).1)
  have h2 : remove_punctuation (joinSpace ((splitWs (remove_punctuation
      (to_lowercase t))).filter (keepWord S))) =
      joinSpace ((splitWs (remove_punctuation (to_lowercase t))).filter (keepWord S)) :=
    List.filter_eq_self.mpr (fun c hc => by simp [(hchars c hc).2])
  have h3 : splitWs (joinSpace ((splitWs (remove_punctuation (to_lowercase t))).filter
      (keepWord S))) =
      (splitWs (remove_punctuation (to_lowercase t))).filter (keepWord S) :=
    splitWs_joinSpace _ htok
  have h4 : ((splitWs (remove_punctuation (to_lowercase t))).filter (keepWord S)).filter
      (keepWord S) = (splitWs (remove_punctuation (to_lowercase t))).filter (keepWord S) :=
    List.filter_eq_self.mpr (fun w hw => List.of_mem_filter hw)
  show remove_stop_words S (remove_punctuation (to_lowercase
      (joinSpace ((splitWs (remove_punctuation (to_lowercase t))).filter (keepWord S))))) =
    pipelineNorm S t
  rw [h1, h2]
  show joinSpace ((splitWs (joinSpace ((splitWs (remove_punctuation
      (to_lowercase t))).filter (keepWord S)))).filter (keepWord S)) = pipelineNorm S t
  rw [h3, h4]
  rfl

/-- C2: `load_text` inserts the (label, statistics) pair into the
registry before persisting the transcript: when the storage write
fails, the returned state carries the new registry entry (looked up
under its key, it is exactly the computed bundle) while the storage is
untouched; when the write succeeds, both are updated. -/
theorem load_text_stats_before_persist (sp : List Nat → List Nat) (sf : List Nat → ℚ)
    (S : List Nat → Bool) (content filename : List Nat)
    (label : Option (List Nat)) (parser : Option (List Nat → List Nat)) (st : FState) :
    (load_text sp sf S (some content) false filename label parser st =
      (some LoadErr.storageError,
        { registry := (labelOrFilename label filename,
            mkBundle sf (pipelineNorm S (match parser with
              | some p => p content
              | none => sp content))) :: st.registry,
          storage := st.storage })) ∧
    (load_text sp sf S (some content) true filename label parser st =
      (none,
        { registry := (labelOrFilename label filename,
            mkBundle sf (pipelineNorm S (match parser with
              | some p => p content
              | none => sp content))) :: st.registry,
          storage := (filename, pipelineNorm S (match parser with
              | some p => p content
              | none => sp content)) :: st.storage })) ∧
    ((load_text sp sf S (some content) false filename label parser st).2.registry.lookup
        (labelOrFilename label filename) =
      some (mkBundle sf (pipelineNorm S (match parser with
              | some p => p content
              | none => sp content)))) := by
  refine ⟨rfl, rfl, ?_⟩
  show List.lookup _ ((labelOrFilename label filename, _) :: st.registry) = _
  rw [List.lookup_cons]
  simp

/-- C10: the registry key of `load_text` is the label when it is a
non-empty string and the filename otherwise — an explicit empty-string
label falls back to the filename (Python `label or filename` treats
`''` as falsy), as does an omitted label. -/
theorem load_text_registry_key (sp : List Nat → List Nat) (sf : List Nat → ℚ)
    (S : List Nat → Bool) (content : List Nat) (storeOk : Bool)
    (filename : List Nat) (parser : Option (List Nat → List Nat)) (st : FState) :
    (∀ l : List Nat,
      (load_text sp sf S (some content) storeOk filename (some l) parser st).2.registry =
        ((if l = [] then filename else l),
          mkBundle sf (pipelineNorm S (match parser with
            | some p => p content
            | none => sp content))) :: st.registry) ∧
    ((load_text sp sf S (some content) storeOk filename none parser st).2.registry =
      (filename, mkBundle sf (pipelineNorm S (match parser with
            | some p => p content
            | none => sp content))) :: st.registry) := by
  constructor
  · intro l
    cases storeOk <;> rfl
  · cases storeOk <;> rfl

/-- C9: the scoped per-site extractors never fail for a missing content
container; when the site-specific `div` (class `govspeak` for
`scrape_uk`, class `content-body` for `scrape_bc`) is absent from the
document, they extract exactly the text the generic paragraph extractor
produces on the whole document. -/
theorem scoped_extractor_fallback (doc : List Html) :
    (findDivList (str "govspeak") doc = none →
      scrape_uk doc = extract_text_from_html doc) ∧
    (findDivList (str "content-body") doc = none →
      scrape_bc doc = extract_text_from_html doc) := by
  constructor
  · intro h
    show (match findDivList (str "govspeak") doc with
      | some content => extractPs (findAllPList (childrenOf content))
      | none => extractPs (findAllPList doc)) = extract_text_from_html doc
    rw [h]
    rfl
  · intro h
    show (match findDivList (str "content-body") doc with
      | some content => extractPs (findAllPList (childrenOf content))
      | none => extractPs (findAllPList doc)) = extract_text_from_html doc
    rw [h]
    rfl

/-- Witness for C9 at a concrete document lacking both containers. -/
theorem scoped_extractor_fallback_witness :
    (findDivList (str "govspeak") exHtml = none ∧
      scrape_uk exHtml = extract_text_from_html exHtml) ∧
    (findDivList (str "content-body") exHtml = none ∧
      scrape_bc exHtml = extract_text_from_html exHtml) :=
  ⟨⟨rfl, (scoped_extractor_fallback exHtml).1 rfl⟩,
   ⟨rfl, (scoped_extractor_fallback exHtml).2 rfl⟩⟩

/-- C1 (amended): a fetch failure in `Funion.load_text` raises before
any state change, so no registry or storage entry is added for that
document; the standalone scraper loop (`fetch_and_save`) catches the
failure, reports it as `false` and still processes every later
document; but the `load_text` driver has no try/except, so the raised
exception ends the run and the documents after the failing one are not
processed. -/
theorem fetch_failure_isolation :
    (∀ (sp : List Nat → List Nat) (sf : List Nat → ℚ) (S : List Nat → Bool)
        (storeOk : Bool) (filename : List Nat) (label : Option (List Nat))
        (parser : Option (List Nat → List Nat)) (st : FState),
      load_text sp sf S none storeOk filename label parser st =
        (some LoadErr.fetchError, st)) ∧
    (∀ (d : SDoc) (ds : List SDoc) (storage : List (List Nat × List Nat)),
      d.fetchResult = none →
        scrapeRun (d :: ds) storage =
          (false :: (scrapeRun ds storage).1, (scrapeRun ds storage).2)) ∧
    (∀ (sp : List Nat → List Nat) (sf : List Nat → ℚ) (S : List Nat → Bool)
        (d : Doc) (ds : List Doc) (st : FState),
      d.fetchResult = none →
        funionRun sp sf S (d :: ds) st = (some LoadErr.fetchError, st)) := by
  refine ⟨fun _ _ _ _ _ _ _ _ => rfl, ?_, ?_⟩
  · intro d ds storage h
    show (let r := fetch_and_save d storage
          let rest := scrapeRun ds r.2
          (r.1 :: rest.1, rest.2)) = _
    rw [show fetch_and_save d storage = (false, storage) by
      rw [fetch_and_save, h]]
  · intro sp sf S d ds st h
    show (match load_text sp sf S d.fetchResult d.storeOk d.filename d.label d.parser st with
      | (none, st2) => funionRun sp sf S ds st2
      | (some e, st2) => (some e, st2)) = _
    rw [h]
    rfl

/-- Counterexample to C1 as stated: in the `load_text` run, document
"Doc One" fails its fetch and the run aborts, so the subsequent
document "Doc Two" is never processed — its registry entry is absent —
although processing "Doc Two" alone would have registered it. -/
theorem fetch_failure_aborts_run :
    ((funionRun id (fun _ => 0) (fun _ => false) [exDocFail, exDocOk]
        ⟨[], []⟩).2.registry.lookup (str "Doc Two") = none) ∧
    (((funionRun id (fun _ => 0) (fun _ => false) [exDocOk]
        ⟨[], []⟩).2.registry.lookup (str "Doc Two")).isSome = true) ∧
    ((funionRun id (fun _ => 0) (fun _ => false) [exDocFail, exDocOk]
        ⟨[], []⟩).1 = some LoadErr.fetchError) :=
  ⟨rfl, rfl, rfl⟩

/-- Witness for the amended C1 at concrete documents. -/
theorem fetch_failure_isolation_witness :
    (scrapeRun [exSDocFail, exSDocOk] [] =
      (false :: (scrapeRun [exSDocOk] []).1, (scrapeRun [exSDocOk] []).2)) ∧
    (funionRun id (fun _ => 0) (fun _ => false) [exDocFail] ⟨[], []⟩ =
      (some LoadErr.fetchError, ⟨[], []⟩)) :=
  ⟨fetch_failure_isolation.2.1 exSDocFail [exSDocOk] [] rfl,
   fetch_failure_isolation.2.2 id (fun _ => 0) (fun _ => false) exDocFail [] ⟨[], []⟩ rfl⟩

/-- Witness for C3 at a concrete input: the character `f` (102) of the
normalized text and the surviving token "fox". -/
theorem pipeline_invariant_witness :
    (isPunct 102 = false ∧ ¬(65 ≤ 102 ∧ 102 ≤ 90)) ∧
    ((fun w => w == str "the") ((str "fox").map lowerChar) = false ∧
     (str "fox").map lowerChar ≠ applause ∧
     (str "fox").map lowerChar ≠ enDash ∧
     (str "fox").map lowerChar ≠ emDash) :=
  ⟨(pipeline_invariant (fun w => w == str "the") (str "The Fox!")).1 102 (by decide),
   (pipeline_invariant (fun w => w == str "the") (str "The Fox!")).2 (str "fox") (by decide)⟩

/-- Witness for C5: a punctuation-free string passes through unchanged. -/
theorem remove_punctuation_exact_witness :
    remove_punctuation (str "abc def") = str "abc def" :=
  (remove_punctuation_exact.2.2.1 (str "abc def")).mpr (by decide)

/-- Witness for C6: the token "fox" survives a stop-word set not
containing it. -/
theorem remove_stop_words_exact_witness :
    keepWord (fun w => w == str "the") (str "fox") = true :=
  (remove_stop_words_exact.1 (fun w => w == str "the") (str "fox")).mpr (by decide)

/-- Witness for C7: the empty text has mean token length 0. -/
theorem mean_token_length_spec_witness :
    calculate_word_length (str "") = 0 :=
  (mean_token_length_spec (str "")).2.mpr (by decide)

end Funion
